import Mathlib

/-!
Verification development for the `filestore` repository (NSLS-II/fileStore).

We shallowly embed the registry/cache/dispatch pipeline of
`filestore/fs.py`, `filestore/retrieve.py` and `filestore/handlers.py`:

* the parent-chained handler registry (`_ChainMap`), its
  `register_handler` / `deregister_handler` operations and the
  `handler_context` scoped overlay;
* the three `boltons.cacheutils.LRU` caches (datum, handler-instance,
  resource) of `FileStoreRO.__init__`;
* `FileStoreRO.get_spec_handler` and `get_datum`;
* the module-level `HandlerRegistry` and `handler_context` of
  `retrieve.py`;
* the frame-count checks of `AreaDetectorSPEHandler.__call__` and
  `AreaDetectorTiffHandler.__call__` in `handlers.py`.

Python reference semantics for the chained registry dicts is modelled
explicitly: registry dicts live in a heap addressed by numeric ids, the
chain is a list of ids (innermost first), and stashing the registry
reference (as `handler_context` does) stashes the list of ids, so any
in-place mutation of a parent dict would be observable after restore.

Handler constructors are identified by a numeric id (`hid`, modelling
Python object identity as tested by `is`) plus their `__name__`.
Handler instances carry a numeric id freshly allocated at construction,
modelling object identity of instances.
-/

namespace FStore

/-- Spec names are strings. -/
abbrev Spec := String

/-- Opaque keyword-argument payloads (`resource_kwargs`, `datum_kwargs`). -/
abbrev KW := List (String × String)

/-- Array-like values returned by handlers. -/
abbrev Val := List Int

/-- A handler constructor (a Python class object): `hid` models object
identity (the `is` test in `register_handler`), `name` models `__name__`. -/
structure Handler where
  hid : Nat
  name : String
deriving DecidableEq, Repr

/-- A handler instance as constructed by `handler(rpath, **kwargs)` in
`FileStoreRO.get_spec_handler`; `iid` is a freshly allocated identity. -/
structure HInst where
  iid : Nat
  ctor : Handler
  rpath : String
  rkwargs : KW
deriving DecidableEq, Repr

/-- A document of the `resource` collection:
`{_id, spec, resource_path, resource_kwargs}`. -/
structure Resource where
  rid : Nat
  spec : Spec
  resource_path : String
  resource_kwargs : KW
deriving DecidableEq, Repr

/-- A document of the `datum` collection:
`{datum_id (unique), resource, datum_kwargs}`. -/
structure Datum where
  datum_id : String
  resource : Nat
  datum_kwargs : KW
deriving DecidableEq, Repr

/-- Decidable equality of `Except` results, for concrete evaluation. -/
instance exceptDecEq {ε α : Type} [DecidableEq ε] [DecidableEq α] :
    DecidableEq (Except ε α) := fun x y =>
  match x, y with
  | Except.ok a, Except.ok b =>
      if h : a = b then isTrue (by rw [h])
      else isFalse (fun he => h (Except.ok.inj he))
  | Except.error a, Except.error b =>
      if h : a = b then isTrue (by rw [h])
      else isFalse (fun he => h (Except.error.inj he))
  | Except.ok _, Except.error _ => isFalse (fun he => Except.noConfusion he)
  | Except.error _, Except.ok _ => isFalse (fun he => Except.noConfusion he)

/-- Errors surfaced by the embedded operations. -/
inductive Err where
  | duplicateHandler (k : Spec)
  | keyError (k : Spec)
  | notFound
  | validationError
  | conflictError (did : String)
  | bodyError
deriving DecidableEq, Repr

/-! ### Association lists (Python `dict` semantics) -/

/-- Lookup in an association list (first binding wins). -/
def lookupA {K V : Type} [DecidableEq K] : List (K × V) → K → Option V
  | [], _ => none
  | (k, v) :: rest, key => if k = key then some v else lookupA rest key

/-- `d[k] = v`: update the existing binding in place, else append
(insertion-ordered, like a Python dict). -/
def setA {K V : Type} [DecidableEq K] : List (K × V) → K → V → List (K × V)
  | [], key, v => [(key, v)]
  | (k, w) :: rest, key, v =>
      if k = key then (k, v) :: rest else (k, w) :: setA rest key v

/-- `del d[k]` / `d.pop(k)`: remove the binding for `k` if present. -/
def removeA {K V : Type} [DecidableEq K] : List (K × V) → K → List (K × V)
  | [], _ => []
  | (k, w) :: rest, key =>
      if k = key then rest else (k, w) :: removeA rest key

theorem lookupA_setA_self {K V : Type} [DecidableEq K]
    (l : List (K × V)) (k : K) (v : V) : lookupA (setA l k v) k = some v := by
  induction l with
  | nil => simp [setA, lookupA]
  | cons p rest ih =>
      by_cases h : p.1 = k
      · simp [setA, h, lookupA]
      · simp [setA, h, lookupA, ih]

theorem lookupA_setA_ne {K V : Type} [DecidableEq K]
    (l : List (K × V)) (k k' : K) (v : V) (h : k ≠ k') :
    lookupA (setA l k v) k' = lookupA l k' := by
  induction l with
  | nil => simp [setA, lookupA, h]
  | cons p rest ih =>
      by_cases hp : p.1 = k
      · simp [setA, hp, lookupA, h]
      · simp [setA, hp, lookupA, ih]

/-! ### Registry dict heap

Each registry dict (`_ChainMap` layer) is stored in a heap addressed by a
numeric id; the chain holds ids, innermost first.  This makes references
and in-place mutation explicit, as in Python. -/

/-- A registry layer: one Python dict from spec names to handler ctors. -/
abbrev Layer := List (Spec × Handler)

/-- The heap of registry dicts. -/
abbrev Heap := List (Nat × Layer)

/-- Dereference a dict id (absent ids read as the empty dict). -/
def hget (h : Heap) (i : Nat) : Layer := (lookupA h i).getD []

/-- Write a dict id. -/
def hset (h : Heap) (i : Nat) (l : Layer) : Heap := setA h i l

theorem hget_hset_self (h : Heap) (i : Nat) (l : Layer) :
    hget (hset h i l) i = l := by
  simp [hget, hset, lookupA_setA_self]

theorem hget_hset_ne (h : Heap) (i j : Nat) (l : Layer) (hij : i ≠ j) :
    hget (hset h i l) j = hget h j := by
  simp [hget, hset, lookupA_setA_ne _ _ _ _ hij]

/-! ### LRU caches (`boltons.cacheutils.LRU`)

Entries are kept most-recently-used first.  `get` moves a hit to the
front; `set` inserts at the front and evicts the least-recently-used
entry when the size would exceed `maxSize`.  `boltons.cacheutils`'s
`DEFAULT_MAX_SIZE` is 128, so `LRU()` (as used for the handler-instance
and resource caches in `FileStoreRO.__init__`) is bounded at 128. -/

def DEFAULT_MAX_SIZE : Nat := 128

structure LRU (K V : Type) where
  maxSize : Nat
  entries : List (K × V)
deriving DecidableEq, Repr

/-- Cache lookup: on a hit the entry moves to the most-recent position. -/
def LRU.get {K V : Type} [DecidableEq K] (c : LRU K V) (k : K) :
    Option V × LRU K V :=
  match lookupA c.entries k with
  | none => (none, c)
  | some v => (some v, { c with entries := (k, v) :: removeA c.entries k })

/-- Cache insertion with LRU eviction on overflow. -/
def LRU.set {K V : Type} [DecidableEq K] (c : LRU K V) (k : K) (v : V) :
    LRU K V :=
  let es := (k, v) :: removeA c.entries k
  { c with entries := if c.maxSize < es.length then es.dropLast else es }

/-- `del cache[k]`. -/
def LRU.del {K V : Type} [DecidableEq K] (c : LRU K V) (k : K) : LRU K V :=
  { c with entries := removeA c.entries k }

/-! ### The embedded `FileStoreRO` state -/

structure FS where
  /-- heap of registry dicts. -/
  heap : Heap
  /-- `handler_reg`: the `_ChainMap` as a list of dict ids, innermost first. -/
  chain : List Nat
  /-- allocator for fresh registry-dict ids. -/
  hnext : Nat
  /-- `_handler_cache`: keyed by `(resource _id, handler __name__)`. -/
  hcache : LRU (Nat × String) HInst
  /-- `_resource_cache`. -/
  rcache : LRU Nat Resource
  /-- `_datum_cache`. -/
  dcache : LRU String Datum
  /-- the `resource` collection of the document store. -/
  res_col : List Resource
  /-- the `datum` collection of the document store. -/
  datum_col : List Datum
  /-- allocator for fresh handler-instance identities. -/
  inext : Nat
  /-- allocator for fresh resource `_id`s. -/
  rnext : Nat
deriving DecidableEq, Repr

/-- `FileStoreRO.__init__`: one registry layer holding `handler_reg`,
a datum cache bounded at 10^6, and handler-instance and resource caches
built as `boltons.cacheutils.LRU()` — bounded at the library default. -/
def initFS (handler_reg : Layer) : FS :=
  { heap := [(0, handler_reg)]
    chain := [0]
    hnext := 1
    hcache := ⟨DEFAULT_MAX_SIZE, []⟩
    rcache := ⟨DEFAULT_MAX_SIZE, []⟩
    dcache := ⟨1000000, []⟩
    res_col := []
    datum_col := []
    inext := 0
    rnext := 0 }

/-- `_ChainMap.__getitem__`: try each layer, innermost first. -/
def resolveIds (heap : Heap) : List Nat → Spec → Option Handler
  | [], _ => none
  | i :: rest, k =>
      match lookupA (hget heap i) k with
      | some h => some h
      | none => resolveIds heap rest k

/-- `self.handler_reg[spec]` as an `Option`. -/
def FS.resolve (s : FS) (k : Spec) : Option Handler :=
  resolveIds s.heap s.chain k

/-- The id of the innermost registry dict (`maps[0]`). -/
def FS.inner (s : FS) : Nat := s.chain.headD 0

/-- `self.handler_reg[key] = handler`: `_ChainMap.__setitem__` writes to
the innermost layer only. -/
def FS.setInner (s : FS) (k : Spec) (h : Handler) : FS :=
  { s with heap := hset s.heap s.inner (setA (hget s.heap s.inner) k h) }

/-- Delete every handler-cache entry whose key's handler-type-name is
`name` (the eviction scan `for k in list(self._handler_cache): if k[1] ==
name: del self._handler_cache[k]`). -/
def evictByName (name : String) (c : LRU (Nat × String) HInst) :
    LRU (Nat × String) HInst :=
  { c with entries := c.entries.filter (fun e => ¬ e.1.2 = name) }

/-- Eviction for each handler name in a list (the `handler_context`
finally-block loops over `popped_reg.values()`). -/
def evictByNames (names : List String) (c : LRU (Nat × String) HInst) :
    LRU (Nat × String) HInst :=
  { c with entries := c.entries.filter (fun e => ¬ names.contains e.1.2) }

/-- `FileStoreRO.deregister_handler`: `handler_reg.pop(key, None)` pops
from the innermost layer only; if a handler was removed, evict every
handler-cache entry keyed by its `__name__`. -/
def FS.deregister_handler (s : FS) (k : Spec) : FS :=
  let layer := hget s.heap s.inner
  match lookupA layer k with
  | none => s
  | some h =>
      { s with heap := hset s.heap s.inner (removeA layer k)
               hcache := evictByName h.name s.hcache }

/-- `FileStoreRO.register_handler`. -/
def FS.register_handler (s : FS) (k : Spec) (h : Handler) (overwrite : Bool) :
    Except Err FS :=
  if ¬ overwrite ∧ (s.resolve k).isSome then
    if s.resolve k = some h then Except.ok s
    else Except.error (Err.duplicateHandler k)
  else
    Except.ok ((s.deregister_handler k).setInner k h)

/-! ### Registry operations as a small language

`handler_context` takes an arbitrary body; we close the body over the
registry-mutating operations of the `FileStoreRO` API (register,
deregister, nested `handler_context`) plus an op that raises an
arbitrary exception. -/

inductive Op where
  | register (k : Spec) (h : Handler) (overwrite : Bool)
  | deregister (k : Spec)
  | context (overlay : Layer) (body : List Op)
  | fail
deriving Repr

mutual

/-- Run one operation.  A raised exception leaves the state as it was at
the raise point and aborts the remainder of the enclosing body;
`handler_context`'s `finally` block still runs. -/
def runOp : Op → FS → FS × Option Err
  | Op.register k h ow, s =>
      match s.register_handler k h ow with
      | Except.ok s1 => (s1, none)
      | Except.error e => (s, some e)
  | Op.deregister k, s => (s.deregister_handler k, none)
  | Op.fail, s => (s, some Err.bodyError)
  | Op.context overlay body, s =>
      -- stash = self.handler_reg
      let stash := s.chain
      -- self.handler_reg = self.handler_reg.new_child(temp_handlers):
      -- a fresh dict holding the overlay is pushed onto the chain
      let d := s.hnext
      let s1 : FS := { s with heap := hset s.heap d overlay
                              chain := d :: s.chain
                              hnext := s.hnext + 1 }
      let r := runOps body s1
      -- finally: popped_reg = self.handler_reg.maps[0];
      --          self.handler_reg = stash;
      --          evict handler-cache entries named by popped_reg.values()
      let popped := hget r.1.heap r.1.inner
      ({ r.1 with chain := stash
                  hcache := evictByNames (popped.map (fun p => p.2.name))
                    r.1.hcache },
       r.2)

/-- Run a body; stop at the first raised exception. -/
def runOps : List Op → FS → FS × Option Err
  | [], s => (s, none)
  | op :: rest, s =>
      match runOp op s with
      | (s1, none) => runOps rest s1
      | (s1, some e) => (s1, some e)

end

/-! ### `FileStoreRO.get_spec_handler` and `get_datum` -/

/-- `FileStoreRO.get_spec_handler`.  The resource is read through the
resource cache (whose `on_miss` loader is `find_one({'_id': k})` on the
`resource` collection); the handler constructor is resolved from
`resource['spec']` (a chain-wide lookup, `KeyError` if absent); the
handler-instance cache is consulted at key `(resource _id, handler
__name__)`, and only on a miss is a new instance constructed from
`(resource_path, **resource_kwargs)` and cached. -/
def FS.get_spec_handler (s : FS) (rid : Nat) : Except Err (HInst × FS) :=
  let rfetch : Except Err (Resource × FS) :=
    match s.rcache.get rid with
    | (some r, rc) => Except.ok (r, { s with rcache := rc })
    | (none, rc) =>
        match s.res_col.find? (fun r => r.rid == rid) with
        | none => Except.error Err.notFound
        | some r => Except.ok (r, { s with rcache := rc.set rid r })
  match rfetch with
  | Except.error e => Except.error e
  | Except.ok (r, s1) =>
      match s1.resolve r.spec with
      | none => Except.error (Err.keyError r.spec)
      | some hdl =>
          let key := (r.rid, hdl.name)
          match s1.hcache.get key with
          | (some inst, hc) => Except.ok (inst, { s1 with hcache := hc })
          | (none, hc) =>
              let inst : HInst := ⟨s1.inext, hdl, r.resource_path,
                                   r.resource_kwargs⟩
              Except.ok (inst, { s1 with hcache := hc.set key inst
                                         inext := s1.inext + 1 })

/-- Modelled from the spec: `filestore.core.get_datum` (called by
`FileStoreRO.get_datum`) is not under `src/`.  Following §4.3 of the
spec, steps 1 and 5 of the retrieval pipeline: fetch the `Datum` through
the datum cache (load-through to the `datum` collection by `datum_id`,
`NotFoundError` if absent), obtain the handler instance via
`get_spec_handler` on the datum's resource reference, and invoke it with
`**datum_kwargs`.  Handler-instance behaviour is supplied by `callH`,
mapping a constructor, its construction arguments and the call kwargs to
the returned array. -/
def FS.get_datum (callH : Handler → String → KW → KW → Val) (s : FS)
    (eid : String) : Except Err (Val × FS) :=
  let dfetch : Except Err (Datum × FS) :=
    match s.dcache.get eid with
    | (some d, dc) => Except.ok (d, { s with dcache := dc })
    | (none, dc) =>
        match s.datum_col.find? (fun d => d.datum_id == eid) with
        | none => Except.error Err.notFound
        | some d => Except.ok (d, { s with dcache := dc.set eid d })
  match dfetch with
  | Except.error e => Except.error e
  | Except.ok (d, s1) =>
      match s1.get_spec_handler d.resource with
      | Except.error e => Except.error e
      | Except.ok (inst, s2) =>
          Except.ok (callH inst.ctor inst.rpath inst.rkwargs d.datum_kwargs,
                     s2)

/-! ### Insertion (`FileStore.insert_resource` / `insert_datum`) -/

/-- Modelled from the spec: `filestore.core.insert_resource` (called by
`FileStore.insert_resource`) is not under `src/`.  Following §4.4 of the
spec: validate `resource_kwargs` against the spec's resource schema
(`ValidationError` on mismatch; the spec need not have a registered
handler), persist a new `Resource` document with a fresh `_id`, and
return it.  Schema validation is supplied as the predicate `validR`. -/
def FS.insert_resource (validR : Spec → KW → Bool) (s : FS) (sp : Spec)
    (path : String) (kw : KW) : Except Err (Resource × FS) :=
  if validR sp kw then
    let r : Resource := ⟨s.rnext, sp, path, kw⟩
    Except.ok (r, { s with res_col := r :: s.res_col, rnext := s.rnext + 1 })
  else Except.error Err.validationError

/-- Modelled from the spec: `filestore.core.insert_datum` (called by
`FileStore.insert_datum`) is not under `src/`.  Following §4.4 of the
spec: validate `datum_kwargs` against the spec's datum schema; enforce
global uniqueness of `datum_id` (the unique index on the `datum`
collection; `ConflictError` on a duplicate); persist a new `Datum`
referencing the resource, and return it. -/
def FS.insert_datum (validD : Spec → KW → Bool) (s : FS) (r : Resource)
    (did : String) (kw : KW) : Except Err (Datum × FS) :=
  if ¬ validD r.spec kw then Except.error Err.validationError
  else if s.datum_col.any (fun d => d.datum_id == did) then
    Except.error (Err.conflictError did)
  else
    let d : Datum := ⟨did, r.rid, kw⟩
    Except.ok (d, { s with datum_col := d :: s.datum_col })

/-! ### The module-level registry of `retrieve.py`

`HandlerRegistry` is a plain dict subclass; its `handler_context` swaps
temporary handlers into the one global dict and — only on a normal exit,
since the lines after `yield` are not protected by `try/finally` —
swaps them back. -/

/-- The module-level `HandlerRegistry` (`retrieve.py`): a plain dict. -/
abbrev HReg := List (Spec × Handler)

/-- `HandlerRegistry.register_handler`. -/
def HReg.register_handler (reg : HReg) (k : Spec) (h : Handler)
    (overwrite : Bool) : Except Err HReg :=
  if ¬ overwrite ∧ (lookupA reg k).isSome then
    if lookupA reg k = some h then Except.ok reg
    else Except.error (Err.duplicateHandler k)
  else Except.ok (setA reg k h)

/-- `HandlerRegistry.deregister_handler`: `if key in self: del self[key]`. -/
def HReg.deregister_handler (reg : HReg) (k : Spec) : HReg :=
  if (lookupA reg k).isSome then removeA reg k else reg

/-- The entry loop of `retrieve.handler_context`: for each `(k, v)` of
`temp_handlers`, record `k` in `remove_list` if it is new, else pop the
old handler into `replace_list`; then register `v`.  Returns the updated
registry and the two bookkeeping lists (in iteration order). -/
def hcEnter : List (Spec × Handler) → HReg → List Spec →
    List (Spec × Handler) → HReg × List Spec × List (Spec × Handler)
  | [], reg, rem, rep => (reg, rem, rep)
  | (k, v) :: rest, reg, rem, rep =>
      match lookupA reg k with
      | none =>
          match HReg.register_handler reg k v false with
          | Except.ok reg1 => hcEnter rest reg1 (rem ++ [k]) rep
          | Except.error _ => (reg, rem, rep)
      | some old =>
          match HReg.register_handler (removeA reg k) k v false with
          | Except.ok reg1 => hcEnter rest reg1 rem (rep ++ [(k, old)])
          | Except.error _ => (reg, rem, rep)

/-- The cleanup lines after `yield` in `retrieve.handler_context`:
deregister newly-introduced keys, re-register replaced handlers with
`overwrite=True`. -/
def hcExit (rem : List Spec) (rep : List (Spec × Handler)) (reg : HReg) :
    HReg :=
  let reg1 := rem.foldl (fun r k => HReg.deregister_handler r k) reg
  rep.foldl
    (fun r p =>
      match HReg.register_handler r p.1 p.2 true with
      | Except.ok r1 => r1
      | Except.error _ => r) reg1

/-- `retrieve.handler_context` run around a body that either completes
normally or raises.  There is no `try/finally` around the `yield`, so
when the body raises, the generator is resumed with the exception at the
`yield` point and the cleanup lines never run: the registry is left in
its entered state. -/
def retrieve_handler_context (temp : List (Spec × Handler))
    (bodyRaises : Bool) (reg : HReg) : HReg × Option Err :=
  let e := hcEnter temp reg [] []
  if bodyRaises then (e.1, some Err.bodyError)
  else (hcExit e.2.1 e.2.2 e.1, none)

/-! ### Frame-count checks of the file handlers (`handlers.py`) -/

/-- One image frame. -/
abbrev Frame := List (List Int)

/-- `AreaDetectorSPEHandler.__call__`: `data = spe.getData()`; raise
`IntegrityError("expected {fpp} frames, found {n} frames")` when the
first axis of `data` differs from `frame_per_point`, else return the
data (squeezing only normalizes the shape).  Errors carry the message
string. -/
def AreaDetectorSPEHandler.call (fpp : Nat) (data : List Frame) :
    Except String (List Frame) :=
  if ¬ data.length = fpp then
    Except.error ("expected " ++ toString fpp ++ " frames, found " ++
      toString data.length ++ " frames")
  else Except.ok data

/-- `AreaDetectorTiffHandler.__call__`: slice `[start:stop)` out of the
image sequence; when `stop` exceeds the cached sequence, re-glob the
files (`current`); if still short, raise `IntegrityError("Seeking Frame
{stop} out of {n} frames.")`. -/
def AreaDetectorTiffHandler.call (fpp point : Nat) (cached current : List Frame) :
    Except String (List Frame) :=
  let start := point * fpp
  let stop := (point + 1) * fpp
  let seq := if cached.length < stop then current else cached
  if seq.length < stop then
    Except.error ("Seeking Frame " ++ toString stop ++ " out of " ++
      toString seq.length ++ " frames.")
  else Except.ok ((seq.drop start).take (stop - start))

/-! ### Frame lemmas: registry operations touch only the innermost dict
or freshly allocated dicts -/

theorem deregister_chain (s : FS) (k : Spec) :
    (s.deregister_handler k).chain = s.chain := by
  unfold FS.deregister_handler
  rcases hl : lookupA (hget s.heap s.inner) k with _ | h <;> simp [hl]

theorem deregister_hnext (s : FS) (k : Spec) :
    (s.deregister_handler k).hnext = s.hnext := by
  unfold FS.deregister_handler
  rcases hl : lookupA (hget s.heap s.inner) k with _ | h <;> simp [hl]

theorem deregister_heap_frame (s : FS) (k : Spec) (i : Nat)
    (hi : ¬ i = s.inner) :
    hget (s.deregister_handler k).heap i = hget s.heap i := by
  unfold FS.deregister_handler
  rcases hl : lookupA (hget s.heap s.inner) k with _ | h
  · simp [hl]
  · simp only [hl]
    exact hget_hset_ne _ _ _ _ (fun he => hi he.symm)

theorem setInner_chain (s : FS) (k : Spec) (h : Handler) :
    (s.setInner k h).chain = s.chain := rfl

theorem setInner_hnext (s : FS) (k : Spec) (h : Handler) :
    (s.setInner k h).hnext = s.hnext := rfl

theorem setInner_heap_frame (s : FS) (k : Spec) (h : Handler) (i : Nat)
    (hi : ¬ i = s.inner) :
    hget (s.setInner k h).heap i = hget s.heap i := by
  unfold FS.setInner
  exact hget_hset_ne _ _ _ _ (fun he => hi he.symm)

theorem register_ok_frame (s s1 : FS) (k : Spec) (h : Handler) (ow : Bool)
    (hr : s.register_handler k h ow = Except.ok s1) :
    s1.chain = s.chain ∧ s1.hnext = s.hnext ∧
    ∀ i, ¬ i = s.inner → hget s1.heap i = hget s.heap i := by
  unfold FS.register_handler at hr
  by_cases hc : ¬ ow = true ∧ (s.resolve k).isSome = true
  · rw [if_pos hc] at hr
    by_cases he : s.resolve k = some h
    · rw [if_pos he] at hr
      cases hr
      exact ⟨rfl, rfl, fun i _ => rfl⟩
    · rw [if_neg he] at hr
      cases hr
  · rw [if_neg hc] at hr
    cases hr
    refine ⟨?_, ?_, ?_⟩
    · rw [setInner_chain, deregister_chain]
    · rw [setInner_hnext, deregister_hnext]
    · intro i hi
      have hi2 : ¬ i = (s.deregister_handler k).inner := by
        simpa [FS.inner, deregister_chain] using hi
      rw [setInner_heap_frame _ _ _ _ hi2, deregister_heap_frame _ _ _ hi]

mutual

/-- Running any single API operation preserves the chain and the
allocator floor, and modifies the heap only at the innermost dict or at
freshly allocated dicts. -/
theorem runOp_frame (op : Op) (s : FS) :
    (runOp op s).1.chain = s.chain ∧
    s.hnext ≤ (runOp op s).1.hnext ∧
    ∀ i, ¬ i = s.inner → i < s.hnext →
      hget (runOp op s).1.heap i = hget s.heap i := by
  cases op with
  | register k h ow =>
      rcases hr : s.register_handler k h ow with s1 | s1
      · have hrun : runOp (Op.register k h ow) s = (s, some s1) := by
          simp only [runOp, hr]
        rw [hrun]
        exact ⟨rfl, Nat.le_refl _, fun i _ _ => rfl⟩
      · obtain ⟨h1, h2, h3⟩ := register_ok_frame s s1 k h ow hr
        have hrun : runOp (Op.register k h ow) s = (s1, none) := by
          simp only [runOp, hr]
        rw [hrun]
        exact ⟨h1, Nat.le_of_eq h2.symm, fun i hi _ => h3 i hi⟩
  | deregister k =>
      have hrun : runOp (Op.deregister k) s = (s.deregister_handler k, none) := by
        simp only [runOp]
      rw [hrun]
      exact ⟨deregister_chain s k, Nat.le_of_eq (deregister_hnext s k).symm,
             fun i hi _ => deregister_heap_frame s k i hi⟩
  | fail =>
      have hrun : runOp Op.fail s = (s, some Err.bodyError) := by
        simp only [runOp]
      rw [hrun]
      exact ⟨rfl, Nat.le_refl _, fun i _ _ => rfl⟩
  | context overlay body =>
      have hb := runOps_frame body
        { s with heap := hset s.heap s.hnext overlay
                 chain := s.hnext :: s.chain
                 hnext := s.hnext + 1 }
      refine ⟨rfl, ?_, ?_⟩
      · exact Nat.le_trans (Nat.le_succ _) hb.2.1
      · intro i hi hlt
        have hne : ¬ i = s.hnext := Nat.ne_of_lt hlt
        have hfr := hb.2.2 i (by simpa [FS.inner] using hne)
          (Nat.lt_succ_of_lt hlt)
        show hget (runOps body _).1.heap i = hget s.heap i
        rw [hfr]
        exact hget_hset_ne _ _ _ _ (fun he => hne he.symm)

/-- Running a body of API operations preserves the chain and the
allocator floor, and modifies the heap only at the innermost dict or at
freshly allocated dicts. -/
theorem runOps_frame (ops : List Op) (s : FS) :
    (runOps ops s).1.chain = s.chain ∧
    s.hnext ≤ (runOps ops s).1.hnext ∧
    ∀ i, ¬ i = s.inner → i < s.hnext →
      hget (runOps ops s).1.heap i = hget s.heap i := by
  cases ops with
  | nil =>
      refine ⟨rfl, Nat.le_refl _, fun i _ _ => rfl⟩
  | cons op rest =>
      have h1 := runOp_frame op s
      rcases hr : runOp op s with ⟨s1, e⟩
      rw [hr] at h1
      have h1c : s1.chain = s.chain := h1.1
      have h1n : s.hnext ≤ s1.hnext := h1.2.1
      have h1h : ∀ i, ¬ i = s.inner → i < s.hnext →
          hget s1.heap i = hget s.heap i := h1.2.2
      cases e with
      | some err =>
          refine ⟨?_, ?_, ?_⟩ <;> simp only [runOps, hr]
          · exact h1c
          · exact h1n
          · exact h1h
      | none =>
          have h2 := runOps_frame rest s1
          refine ⟨?_, ?_, ?_⟩ <;> simp only [runOps, hr]
          · rw [h2.1, h1c]
          · exact Nat.le_trans h1n h2.2.1
          · intro i hi hlt
            have hinner1 : s1.inner = s.inner := by
              simp [FS.inner, h1c]
            rw [h2.2.2 i (by rw [hinner1]; exact hi)
                (Nat.lt_of_lt_of_le hlt h1n)]
            exact h1h i hi hlt

end

/-- Layer-wise equal heaps resolve equally over a chain. -/
theorem resolveIds_congr (h1 h2 : Heap) (c : List Nat) (k : Spec)
    (he : ∀ i ∈ c, hget h1 i = hget h2 i) :
    resolveIds h1 c k = resolveIds h2 c k := by
  induction c with
  | nil => rfl
  | cons i rest ih =>
      simp only [resolveIds]
      rw [he i (List.mem_cons_self i rest),
          ih (fun j hj => he j (List.mem_cons_of_mem i hj))]

/-- `FileStoreRO.handler_context` (fs.py): entering the overlay context,
running any body of API operations — including a raising one — and
exiting leaves `resolve` unchanged at every spec: the overlay dict is
discarded and the stashed registry reference is restored, and no body
operation mutates a parent dict in place. -/
theorem fs_handler_context_restores_resolve (s : FS) (overlay : Layer)
    (body : List Op) (hwf : ∀ i ∈ s.chain, i < s.hnext) (k : Spec) :
    ((runOp (Op.context overlay body) s).1).resolve k = s.resolve k := by
  have hb := runOps_frame body
    { s with heap := hset s.heap s.hnext overlay
             chain := s.hnext :: s.chain
             hnext := s.hnext + 1 }
  simp only [runOp, FS.resolve]
  apply resolveIds_congr
  intro i hi
  have hlt : i < s.hnext := hwf i hi
  have hne : ¬ i = s.hnext := Nat.ne_of_lt hlt
  rw [hb.2.2 i (by simpa [FS.inner] using hne) (Nat.lt_succ_of_lt hlt)]
  exact hget_hset_ne _ _ _ _ (fun he => hne he.symm)

/-! ### Claim C1 -/

/-- C1: counterexample evaluation for the module-level
`retrieve.handler_context`.  With `"s"` registered to `H1`, entering the
context with overlay `{"s": H2}` and raising in the body leaves `"s"`
bound to `H2` after exit: the cleanup lines after `yield` are not in a
`try/finally` block and never run, so `resolve("s")` does not return
what it returned before entry, contrary to the claim (and to the
function's own docstring). -/
theorem C1_retrieve_context_raise_leaves_overlay :
    lookupA [(("s" : Spec), (⟨0, "H1"⟩ : Handler))] "s" = some ⟨0, "H1"⟩ ∧
    (retrieve_handler_context [("s", ⟨1, "H2"⟩)] true
        [("s", ⟨0, "H1"⟩)]).1 = [("s", ⟨1, "H2"⟩)] ∧
    lookupA (retrieve_handler_context [("s", ⟨1, "H2"⟩)] true
        [("s", ⟨0, "H1"⟩)]).1 "s" = some ⟨1, "H2"⟩ := by decide

/-! ### Claim C6 -/

/-- A successful `register_handler` with `overwrite=False` leaves the
spec resolving to the registered constructor (the chain is nonempty, as
a `_ChainMap` always holds at least one dict). -/
theorem register_ok_resolve (s s1 : FS) (k : Spec) (h : Handler)
    (hne : s.chain ≠ [])
    (h1 : s.register_handler k h false = Except.ok s1) :
    s1.resolve k = some h := by
  unfold FS.register_handler at h1
  by_cases hc : ¬ (false : Bool) = true ∧ (s.resolve k).isSome = true
  · rw [if_pos hc] at h1
    by_cases he : s.resolve k = some h
    · rw [if_pos he] at h1
      cases h1
      exact he
    · rw [if_neg he] at h1
      cases h1
  · rw [if_neg hc] at h1
    cases h1
    have hnone : s.resolve k = none := by
      rcases hv : s.resolve k with _ | v
      · rfl
      · exact absurd ⟨by simp, by simp [hv]⟩ hc
    rcases hchain : s.chain with _ | ⟨d, rest⟩
    · exact absurd hchain hne
    · have hinner : s.inner = d := by simp [FS.inner, hchain]
      have hlk : lookupA (hget s.heap d) k = none := by
        unfold FS.resolve at hnone
        rw [hchain] at hnone
        rcases hl : lookupA (hget s.heap d) k with _ | v
        · rfl
        · simp only [resolveIds, hl] at hnone
          exact hnone
      have hdereg : s.deregister_handler k = s := by
        simp only [FS.deregister_handler, hinner, hlk]
      rw [hdereg]
      show (s.setInner k h).resolve k = some h
      unfold FS.resolve FS.setInner
      simp only [hchain, resolveIds, hinner, hget_hset_self,
                 lookupA_setA_self]

/-! ### Claim C6 -/

/-- C6: idempotent registration.  If `register_handler(spec, H)`
(`overwrite=False`) succeeds once, calling it again with the identical
constructor `H` raises nothing and returns with the state — registry
and caches — completely unchanged: the second call hits the
early-return branch because the existing binding `is` the same
constructor. -/
theorem C6_register_idempotent (s s1 : FS) (k : Spec) (h : Handler)
    (hne : s.chain ≠ [])
    (h1 : s.register_handler k h false = Except.ok s1) :
    s1.register_handler k h false = Except.ok s1 := by
  have hres : s1.resolve k = some h := register_ok_resolve s s1 k h hne h1
  unfold FS.register_handler
  rw [if_pos ⟨by simp, by simp [hres]⟩, if_pos hres]

/-- C6 witness: registering the handler `⟨0, "H"⟩` for `"s"` on a fresh
store succeeds, and the second identical registration returns the same
state. -/
theorem C6_register_idempotent_witness :
    (initFS []).chain ≠ [] ∧
    (initFS []).register_handler "s" ⟨0, "H"⟩ false =
      Except.ok { initFS [] with heap := [(0, [("s", ⟨0, "H"⟩)])] } ∧
    ({ initFS [] with
        heap := [(0, [("s", ⟨0, "H"⟩)])] } : FS).register_handler "s"
        ⟨0, "H"⟩ false =
      Except.ok { initFS [] with heap := [(0, [("s", ⟨0, "H"⟩)])] } :=
  ⟨by decide, by decide,
   C6_register_idempotent (initFS [])
     { initFS [] with heap := [(0, [("s", ⟨0, "H"⟩)])] } "s" ⟨0, "H"⟩
     (by decide) (by decide)⟩

/-! ### Further association-list lemmas -/

theorem lookupA_removeA_ne {K V : Type} [DecidableEq K]
    (l : List (K × V)) (k k' : K) (h : ¬ k = k') :
    lookupA (removeA l k) k' = lookupA l k' := by
  induction l with
  | nil => rfl
  | cons p rest ih =>
      by_cases hp : p.1 = k
      · simp [removeA, hp, lookupA, h]
      · simp only [removeA, if_neg hp]
        by_cases hp' : p.1 = k'
        · simp [lookupA, hp']
        · simp [lookupA, hp', ih]

theorem keys_removeA_subset {K V : Type} [DecidableEq K]
    (l : List (K × V)) (k : K) :
    ∀ x ∈ (removeA l k).map Prod.fst, x ∈ l.map Prod.fst := by
  induction l with
  | nil => intro x hx; exact absurd hx (by simp [removeA])
  | cons p rest ih =>
      intro x hx
      by_cases hp : p.1 = k
      · simp only [removeA, if_pos hp] at hx
        simp [hx]
      · simp only [removeA, if_neg hp, List.map_cons, List.mem_cons] at hx
        rcases hx with hx | hx
        · simp [hx]
        · simp [ih x hx]

theorem nodup_keys_removeA {K V : Type} [DecidableEq K]
    (l : List (K × V)) (k : K) (h : (l.map Prod.fst).Nodup) :
    ((removeA l k).map Prod.fst).Nodup := by
  induction l with
  | nil => simp [removeA]
  | cons p rest ih =>
      simp only [List.map_cons, List.nodup_cons] at h
      by_cases hp : p.1 = k
      · simpa [removeA, hp] using h.2
      · simp only [removeA, if_neg hp, List.map_cons, List.nodup_cons]
        exact ⟨fun hm => h.1 (keys_removeA_subset rest k p.1 hm), ih h.2⟩

theorem not_mem_keys_removeA_self {K V : Type} [DecidableEq K]
    (l : List (K × V)) (k : K) (h : (l.map Prod.fst).Nodup) :
    k ∉ (removeA l k).map Prod.fst := by
  induction l with
  | nil => simp [removeA]
  | cons p rest ih =>
      simp only [List.map_cons, List.nodup_cons] at h
      by_cases hp : p.1 = k
      · rw [removeA, if_pos hp]
        subst hp
        exact h.1
      · rw [removeA, if_neg hp]
        simp only [List.map_cons, List.mem_cons]
        rintro (he | hm)
        · exact hp he.symm
        · exact ih h.2 hm

theorem lookupA_eq_none_of_not_mem {K V : Type} [DecidableEq K]
    (l : List (K × V)) (k : K) (h : k ∉ l.map Prod.fst) :
    lookupA l k = none := by
  induction l with
  | nil => rfl
  | cons p rest ih =>
      simp only [List.map_cons, List.mem_cons] at h
      push_neg at h
      simp [lookupA, Ne.symm h.1, ih h.2]

theorem lookupA_removeA_self {K V : Type} [DecidableEq K]
    (l : List (K × V)) (k : K) (h : (l.map Prod.fst).Nodup) :
    lookupA (removeA l k) k = none :=
  lookupA_eq_none_of_not_mem _ _ (not_mem_keys_removeA_self l k h)

/-- A spec that resolves forces a nonempty chain. -/
theorem resolve_some_chain_ne (s : FS) (k : Spec) (h : Handler)
    (hr : s.resolve k = some h) : s.chain ≠ [] := by
  intro hc
  unfold FS.resolve at hr
  rw [hc] at hr
  exact Option.noConfusion hr

/-! ### Claim C7 -/

/-- C7: layered resolution.  (1) `resolve` walks the registry layers
innermost-first and returns the constructor of the first layer defining
the spec; (2) a successful registration writes only to the innermost
dict, leaving the chain and every other dict untouched; (3) a spec that
no layer defines makes `resolve` return nothing and makes step 3 of the
retrieval pipeline (`get_spec_handler`, line `handler =
self.handler_reg[spec]`) fail with the key-not-found error. -/
theorem C7_resolution_layered (heap : Heap) (c1 c2 : List Nat) (d : Nat)
    (k : Spec) (h : Handler) (s s1 : FS) (kw : Spec) (hw : Handler)
    (ow : Bool) (rid : Nat) (r : Resource) :
    ((∀ i ∈ c1, lookupA (hget heap i) k = none) →
      lookupA (hget heap d) k = some h →
      resolveIds heap (c1 ++ d :: c2) k = some h) ∧
    (s.register_handler kw hw ow = Except.ok s1 →
      s1.chain = s.chain ∧
      ∀ i, ¬ i = s.inner → hget s1.heap i = hget s.heap i) ∧
    (lookupA s.rcache.entries rid = some r → s.resolve r.spec = none →
      s.get_spec_handler rid = Except.error (Err.keyError r.spec)) := by
  refine ⟨?_, ?_, ?_⟩
  · intro hnone hd
    induction c1 with
    | nil => simp [resolveIds, hd]
    | cons i rest ih =>
        simp only [List.cons_append, resolveIds,
                   hnone i (List.mem_cons_self i rest)]
        exact ih (fun j hj => hnone j (List.mem_cons_of_mem i hj))
  · intro hr
    obtain ⟨h1, _, h3⟩ := register_ok_frame s s1 kw hw ow hr
    exact ⟨h1, h3⟩
  · intro hrc hres
    unfold FS.get_spec_handler
    simp only [LRU.get, hrc]
    unfold FS.resolve at hres
    simp only [FS.resolve, hres]

/-- A store whose resource cache holds a resource with an unregistered
spec (C7 witness). -/
def wS7 : FS := { initFS [] with rcache := ⟨128, [(5, ⟨5, "u", "p", []⟩)]⟩ }

/-- The registry state after registering `"t"` on a fresh store
(C7 witness). -/
def wS7reg : FS := { initFS [] with heap := [(0, [("t", ⟨1, "B"⟩)])] }

/-- C7 witness: first-layer resolution on a two-layer heap; a
registration that touches only the innermost dict; and a key-not-found
failure of `get_spec_handler` for an unregistered spec. -/
theorem C7_resolution_layered_witness :
    resolveIds [(0, [("s", ⟨0, "A"⟩)]), (1, [])] ([1] ++ 0 :: []) "s" =
      some ⟨0, "A"⟩ ∧
    wS7reg.chain = (initFS []).chain ∧
    hget wS7reg.heap 3 = hget (initFS []).heap 3 ∧
    wS7.get_spec_handler 5 = Except.error (Err.keyError "u") := by
  have T1 := C7_resolution_layered [(0, [("s", ⟨0, "A"⟩)]), (1, [])] [1] []
    0 "s" ⟨0, "A"⟩ (initFS []) wS7reg "t" ⟨1, "B"⟩ false 5 ⟨5, "u", "p", []⟩
  have T2 := C7_resolution_layered [] [] [] 0 "s" ⟨0, "A"⟩ wS7 wS7 "t"
    ⟨1, "B"⟩ false 5 ⟨5, "u", "p", []⟩
  refine ⟨T1.1 (by decide) (by decide), ?_, ?_,
          T2.2.2 (by decide) (by decide)⟩
  · exact (T1.2.1 (by decide)).1
  · exact (T1.2.1 (by decide)).2 3 (by decide)

/-! ### Helper characterizations of deregistration, writes and caches -/

theorem deregister_inner_some (s : FS) (k : Spec) (h : Handler)
    (hl : lookupA (hget s.heap s.inner) k = some h) :
    s.deregister_handler k =
      { s with heap := hset s.heap s.inner (removeA (hget s.heap s.inner) k)
               hcache := evictByName h.name s.hcache } := by
  simp only [FS.deregister_handler, hl]

theorem deregister_inner_none (s : FS) (k : Spec)
    (hl : lookupA (hget s.heap s.inner) k = none) :
    s.deregister_handler k = s := by
  simp only [FS.deregister_handler, hl]

/-- After a write to the innermost layer the spec resolves to the
written constructor (nonempty chain). -/
theorem resolve_setInner_self (s : FS) (k : Spec) (h : Handler)
    (hne : s.chain ≠ []) : (s.setInner k h).resolve k = some h := by
  rcases hchain : s.chain with _ | ⟨d, rest⟩
  · exact absurd hchain hne
  · have hinner : s.inner = d := by simp [FS.inner, hchain]
    unfold FS.resolve FS.setInner
    simp only [hchain, resolveIds, hinner, hget_hset_self,
               lookupA_setA_self]

/-- Name-based eviction removes every entry keyed by that handler name. -/
theorem lookupA_filter_name (l : List ((Nat × String) × HInst)) (x : Nat)
    (n : String) :
    lookupA (l.filter (fun e => ¬ e.1.2 = n)) (x, n) = none := by
  induction l with
  | nil => rfl
  | cons p rest ih =>
      by_cases hp : p.1.2 = n
      · simpa [List.filter_cons, hp] using ih
      · have hne : ¬ p.1 = (x, n) := fun he => hp (by rw [he])
        simpa [List.filter_cons, hp, lookupA, hne] using ih

theorem lookupA_evictByName (c : LRU (Nat × String) HInst) (x : Nat)
    (n : String) :
    lookupA (evictByName n c).entries (x, n) = none :=
  lookupA_filter_name c.entries x n

/-- A fresh `LRU.set` is immediately visible (positive capacity). -/
theorem lookupA_LRU_set_self {K V : Type} [DecidableEq K] (c : LRU K V)
    (k : K) (v : V) (hcap : 0 < c.maxSize) :
    lookupA (c.set k v).entries k = some v := by
  simp only [LRU.set]
  by_cases hlen : c.maxSize < ((k, v) :: removeA c.entries k).length
  · rw [if_pos hlen]
    rcases hrem : removeA c.entries k with _ | ⟨p, tail⟩
    · rw [hrem] at hlen
      simp only [List.length_cons, List.length_nil] at hlen
      omega
    · rw [List.dropLast_cons₂]
      simp [lookupA]
  · rw [if_neg hlen]
    simp [lookupA]

/-- `get_spec_handler` on a handler-cache hit returns the cached
instance, constructing nothing. -/
theorem get_spec_handler_hit (s : FS) (rid : Nat) (r : Resource)
    (H : Handler) (inst : HInst)
    (hrc : lookupA s.rcache.entries rid = some r)
    (hres : s.resolve r.spec = some H)
    (hhit : lookupA s.hcache.entries (r.rid, H.name) = some inst) :
    ∃ s2, s.get_spec_handler rid = Except.ok (inst, s2) ∧
      s2.inext = s.inext ∧
      lookupA s2.hcache.entries (r.rid, H.name) = some inst := by
  unfold FS.get_spec_handler
  simp only [LRU.get, hrc]
  unfold FS.resolve at hres
  simp only [FS.resolve, hres, hhit]
  exact ⟨_, rfl, rfl, by simp [lookupA]⟩

/-- `get_spec_handler` on a handler-cache miss constructs a fresh
instance from the resource's path and kwargs and caches it at
`(resource _id, handler __name__)`. -/
theorem get_spec_handler_miss (s : FS) (rid : Nat) (r : Resource)
    (H : Handler)
    (hrc : lookupA s.rcache.entries rid = some r)
    (hres : s.resolve r.spec = some H)
    (hmiss : lookupA s.hcache.entries (r.rid, H.name) = none)
    (hcap : 0 < s.hcache.maxSize) :
    ∃ s2, s.get_spec_handler rid =
        Except.ok (⟨s.inext, H, r.resource_path, r.resource_kwargs⟩, s2) ∧
      s2.inext = s.inext + 1 ∧
      lookupA s2.hcache.entries (r.rid, H.name) =
        some ⟨s.inext, H, r.resource_path, r.resource_kwargs⟩ := by
  unfold FS.get_spec_handler
  simp only [LRU.get, hrc]
  unfold FS.resolve at hres
  simp only [FS.resolve, hres, hmiss]
  exact ⟨_, rfl, rfl, lookupA_LRU_set_self _ _ _ hcap⟩

/-! ### Concrete states for counterexamples and witnesses -/

def ctorA : Handler := ⟨0, "A"⟩

def ctorB : Handler := ⟨1, "B"⟩

def instA : HInst := ⟨0, ctorA, "p", []⟩

/-- A reachable state inside `handler_context({})`: `"s"` is bound in
the parent dict (id 0) while the innermost overlay dict (id 1) is empty,
and a handler instance named by `"s"`'s constructor sits in the cache. -/
def sParentBound : FS :=
  { heap := [(0, [("s", ctorA)]), (1, [])]
    chain := [1, 0]
    hnext := 2
    hcache := ⟨128, [((7, "A"), instA)]⟩
    rcache := ⟨128, []⟩
    dcache := ⟨1000000, []⟩
    res_col := []
    datum_col := []
    inext := 1
    rnext := 0 }

/-- A single-layer state with `"s"` bound in the innermost dict and two
cached instances, one named by each constructor. -/
def sInnerBound : FS :=
  { heap := [(0, [("s", ctorA)])]
    chain := [0]
    hnext := 1
    hcache := ⟨128, [((7, "A"), instA), ((8, "B"), ⟨1, ctorB, "q", []⟩)]⟩
    rcache := ⟨128, []⟩
    dcache := ⟨1000000, []⟩
    res_col := []
    datum_col := []
    inext := 2
    rnext := 0 }

/-! ### Claim C3 -/

/-- C3: counterexample.  In a reachable state where the spec is bound to
`H1` only in a parent layer, `register_handler(spec, H2,
overwrite=True)` succeeds and rebinds the spec, but evicts nothing: the
deregistration step pops only the innermost dict, so the cached instance
keyed by `H1`'s type-name survives, contrary to the claim. -/
theorem C3_register_overwrite_parent_layer_keeps_cache :
    sParentBound.resolve "s" = some ctorA ∧
    ¬ ctorB = ctorA ∧
    (match sParentBound.register_handler "s" ctorB true with
     | Except.ok s1 => some (s1.resolve "s", lookupA s1.hcache.entries (7, "A"))
     | Except.error _ => none) = some (some ctorB, some instA) := by decide

/-- C3 (amended): with the spec resolving to `H1` and `H2` a different
constructor, `register_handler(spec, H2, overwrite=False)` raises the
duplicate-handler error and leaves the state untouched;
`register_handler(spec, H2, overwrite=True)` succeeds, rebinds the spec
to `H2`, and evicts every cached instance keyed by `H1`'s type-name when
the previous binding resides in the innermost layer — when it resides
only in a parent layer, the handler-instance cache is untouched. -/
theorem C3_register_conflict_amended (s : FS) (k : Spec) (H1 H2 : Handler)
    (hb : s.resolve k = some H1) (hne : ¬ H2 = H1) :
    runOp (Op.register k H2 false) s = (s, some (Err.duplicateHandler k)) ∧
    ∃ s1, s.register_handler k H2 true = Except.ok s1 ∧
      s1.resolve k = some H2 ∧
      (lookupA (hget s.heap s.inner) k = some H1 →
        s1.hcache = evictByName H1.name s.hcache) ∧
      (lookupA (hget s.heap s.inner) k = none → s1.hcache = s.hcache) := by
  have hchne : s.chain ≠ [] := resolve_some_chain_ne s k H1 hb
  have hcond1 : ¬ (false : Bool) = true ∧ (s.resolve k).isSome = true :=
    ⟨by simp, by simp [hb]⟩
  have hcond2 : ¬ s.resolve k = some H2 := by
    rw [hb]
    intro hcon
    exact hne (Option.some.inj hcon).symm
  constructor
  · have hreg : s.register_handler k H2 false =
        Except.error (Err.duplicateHandler k) := by
      unfold FS.register_handler
      rw [if_pos hcond1, if_neg hcond2]
    simp only [runOp, hreg]
  · refine ⟨(s.deregister_handler k).setInner k H2, ?_, ?_, ?_, ?_⟩
    · unfold FS.register_handler
      rw [if_neg (by simp)]
    · exact resolve_setInner_self _ k H2
        (by rw [deregister_chain]; exact hchne)
    · intro hl
      rw [deregister_inner_some s k H1 hl]
      rfl
    · intro hl
      rw [deregister_inner_none s k hl]
      rfl

/-- C3 witness: the amended theorem applied in a single-layer state. -/
theorem C3_register_conflict_amended_witness :
    runOp (Op.register "s" ctorB false) sInnerBound =
      (sInnerBound, some (Err.duplicateHandler "s")) ∧
    ∃ s1, sInnerBound.register_handler "s" ctorB true = Except.ok s1 ∧
      s1.resolve "s" = some ctorB ∧
      s1.hcache = evictByName "A" sInnerBound.hcache := by
  have T := C3_register_conflict_amended sInnerBound "s" ctorA ctorB
    (by decide) (by decide)
  obtain ⟨s1, h1, h2, h3, h4⟩ := T.2
  exact ⟨T.1, s1, h1, h2, h3 (by decide)⟩

/-! ### Claim C10 -/

/-- C10: counterexample.  In a reachable state where the spec is bound
to `H` only in a parent layer, re-registering the identical `H` with
`overwrite=True` succeeds but performs no eviction at all — the
deregistration step pops only the innermost dict — so the cached
instance keyed by `H`'s type-name survives, contrary to the claim. -/
theorem C10_register_same_overwrite_parent_no_evict :
    sParentBound.resolve "s" = some ctorA ∧
    (match sParentBound.register_handler "s" ctorA true with
     | Except.ok s1 => some (s1.resolve "s", lookupA s1.hcache.entries (7, "A"))
     | Except.error _ => none) = some (some ctorA, some instA) := by decide

/-- C10 (amended): for a spec resolving to `H`, `register_handler(spec,
H, overwrite=False)` returns early with the state — cache included —
completely untouched, whereas `register_handler(spec, H,
overwrite=True)` leaves the binding unchanged but first deregisters,
evicting every cache entry keyed by `H`'s type-name when the binding
resides in the innermost layer; when it resides only in a parent layer,
the cache is untouched. -/
theorem C10_register_same_overwrite (s : FS) (k : Spec) (H : Handler)
    (hb : s.resolve k = some H) :
    s.register_handler k H false = Except.ok s ∧
    ∃ s1, s.register_handler k H true = Except.ok s1 ∧
      s1.resolve k = some H ∧
      (lookupA (hget s.heap s.inner) k = some H →
        s1.hcache = evictByName H.name s.hcache) ∧
      (lookupA (hget s.heap s.inner) k = none → s1.hcache = s.hcache) := by
  have hchne : s.chain ≠ [] := resolve_some_chain_ne s k H hb
  constructor
  · unfold FS.register_handler
    rw [if_pos ⟨by simp, by simp [hb]⟩, if_pos hb]
  · refine ⟨(s.deregister_handler k).setInner k H, ?_, ?_, ?_, ?_⟩
    · unfold FS.register_handler
      rw [if_neg (by simp)]
    · exact resolve_setInner_self _ k H
        (by rw [deregister_chain]; exact hchne)
    · intro hl
      rw [deregister_inner_some s k H hl]
      rfl
    · intro hl
      rw [deregister_inner_none s k hl]
      rfl

/-- C10 witness: the amended theorem applied in a single-layer state,
where eviction does take place. -/
theorem C10_register_same_overwrite_witness :
    sInnerBound.register_handler "s" ctorA false = Except.ok sInnerBound ∧
    ∃ s1, sInnerBound.register_handler "s" ctorA true = Except.ok s1 ∧
      s1.resolve "s" = some ctorA ∧
      s1.hcache = evictByName "A" sInnerBound.hcache := by
  have T := C10_register_same_overwrite sInnerBound "s" ctorA (by decide)
  obtain ⟨s1, h1, h2, h3, h4⟩ := T.2
  exact ⟨T.1, s1, h1, h2, h3 (by decide)⟩

/-! ### Claim C4 -/

/-- C4: counterexample.  In a reachable state where the spec is bound
only in a parent layer, `deregister_handler` is a complete no-op —
`handler_reg.pop` pops only the innermost dict — so the binding is not
removed and `resolve` still succeeds afterwards, contrary to the claim
that deregistration of a bound spec always removes the binding. -/
theorem C4_deregister_parent_layer_noop :
    sParentBound.resolve "s" = some ctorA ∧
    sParentBound.deregister_handler "s" = sParentBound ∧
    (sParentBound.deregister_handler "s").resolve "s" = some ctorA := by
  decide

/-- C4 (amended): deregistration pops the innermost registry dict only.
(1) When the innermost layer binds the spec to `H` and no parent layer
binds it, `deregister_handler` removes the binding — `resolve`
subsequently fails — and evicts every handler-cache entry keyed by
`H`'s type-name.  (2) Deregistering a spec bound in no layer is a no-op.
(3) After such a deregistration, re-registering `H` and retrieving for a
resource whose instance had been cached constructs a fresh instance
(fresh identity) rather than reusing the evicted one. -/
theorem C4_deregister_amended (s : FS) (k : Spec) (H : Handler) (d : Nat)
    (rest : List Nat) (rid : Nat) (r : Resource) (inst : HInst) :
    (s.chain = d :: rest →
     lookupA (hget s.heap d) k = some H →
     ((hget s.heap d).map Prod.fst).Nodup →
     d ∉ rest →
     resolveIds s.heap rest k = none →
      (s.deregister_handler k).resolve k = none ∧
      (s.deregister_handler k).hcache = evictByName H.name s.hcache) ∧
    (s.chain ≠ [] → s.resolve k = none → s.deregister_handler k = s) ∧
    (s.chain = d :: rest →
     lookupA (hget s.heap d) k = some H →
     ((hget s.heap d).map Prod.fst).Nodup →
     d ∉ rest →
     resolveIds s.heap rest k = none →
     lookupA s.rcache.entries rid = some r →
     r.spec = k →
     lookupA s.hcache.entries (r.rid, H.name) = some inst →
     0 < s.hcache.maxSize →
     ¬ inst.iid = s.inext →
      ∃ s2 s3, (s.deregister_handler k).register_handler k H false =
          Except.ok s2 ∧
        s2.inext = s.inext ∧
        s2.get_spec_handler rid =
          Except.ok (⟨s.inext, H, r.resource_path, r.resource_kwargs⟩, s3) ∧
        ¬ (⟨s.inext, H, r.resource_path, r.resource_kwargs⟩ : HInst) =
          inst) := by
  have parta : s.chain = d :: rest →
      lookupA (hget s.heap d) k = some H →
      ((hget s.heap d).map Prod.fst).Nodup →
      d ∉ rest →
      resolveIds s.heap rest k = none →
      (s.deregister_handler k).resolve k = none ∧
      (s.deregister_handler k).hcache = evictByName H.name s.hcache := by
    intro hchain hl hnd hdnr hrest
    have hinner : s.inner = d := by simp [FS.inner, hchain]
    have hl' : lookupA (hget s.heap s.inner) k = some H := by
      rw [hinner]
      exact hl
    rw [deregister_inner_some s k H hl']
    refine ⟨?_, rfl⟩
    show resolveIds
      (hset s.heap s.inner (removeA (hget s.heap s.inner) k)) s.chain k =
      none
    rw [hchain]
    have hstep : lookupA
        (hget (hset s.heap s.inner (removeA (hget s.heap s.inner) k)) d) k =
        none := by
      rw [hinner, hget_hset_self]
      apply lookupA_removeA_self
      exact hnd
    simp only [resolveIds, hstep]
    rw [resolveIds_congr
      (hset s.heap s.inner (removeA (hget s.heap s.inner) k)) s.heap rest k
      ?_]
    · exact hrest
    · intro i hi
      apply hget_hset_ne
      intro he
      rw [hinner] at he
      rw [← he] at hi
      exact hdnr hi
  refine ⟨parta, ?_, ?_⟩
  · intro hne hnone
    rcases hchain2 : s.chain with _ | ⟨d2, rest2⟩
    · exact absurd hchain2 hne
    · have hinner2 : s.inner = d2 := by simp [FS.inner, hchain2]
      have hl : lookupA (hget s.heap s.inner) k = none := by
        unfold FS.resolve at hnone
        rw [hchain2] at hnone
        rw [hinner2]
        rcases hl2 : lookupA (hget s.heap d2) k with _ | v
        · rfl
        · simp only [resolveIds, hl2] at hnone
          exact hnone
      exact deregister_inner_none s k hl
  · intro hchain hl hnd hdnr hrest hrc hrs hci hcap hii
    obtain ⟨hres1, hhc1⟩ := parta hchain hl hnd hdnr hrest
    set s1 := s.deregister_handler k with hs1
    -- register succeeds: the spec no longer resolves in s1
    have hinner : s.inner = d := by simp [FS.inner, hchain]
    have hl' : lookupA (hget s.heap s.inner) k = some H := by
      rw [hinner]; exact hl
    have hs1lit : s1 =
        { s with heap := hset s.heap s.inner (removeA (hget s.heap s.inner) k)
                 hcache := evictByName H.name s.hcache } :=
      deregister_inner_some s k H hl'
    have hs1chain : s1.chain = s.chain := deregister_chain s k
    have hcond : ¬ (¬ (false : Bool) = true ∧ (s1.resolve k).isSome = true) := by
      rw [hres1]
      simp
    -- the inner deregistration inside register_handler is a no-op on s1
    have hs1inner : s1.inner = d := by
      simp [FS.inner, hs1chain, hchain]
    have hs1l : lookupA (hget s1.heap s1.inner) k = none := by
      rw [hs1inner, hs1lit]
      show lookupA
        (hget (hset s.heap s.inner (removeA (hget s.heap s.inner) k)) d) k =
        none
      rw [hinner, hget_hset_self]
      apply lookupA_removeA_self
      exact hnd
    have hreg : s1.register_handler k H false =
        Except.ok (s1.setInner k H) := by
      unfold FS.register_handler
      rw [if_neg hcond, deregister_inner_none s1 k hs1l]
    have hrc2 : lookupA (s1.setInner k H).rcache.entries rid = some r := by
      show lookupA s1.rcache.entries rid = some r
      rw [hs1lit]
      exact hrc
    have hres2 : (s1.setInner k H).resolve r.spec = some H := by
      rw [hrs]
      apply resolve_setInner_self s1 k H
      intro hc
      rw [hs1chain, hchain] at hc
      exact List.noConfusion hc
    have hmiss2 : lookupA (s1.setInner k H).hcache.entries (r.rid, H.name) =
        none := by
      show lookupA s1.hcache.entries (r.rid, H.name) = none
      rw [hhc1]
      exact lookupA_evictByName s.hcache r.rid H.name
    have hcap2 : 0 < (s1.setInner k H).hcache.maxSize := by
      show 0 < s1.hcache.maxSize
      rw [hhc1]
      exact hcap
    have hinext2 : (s1.setInner k H).inext = s.inext := by
      show s1.inext = s.inext
      rw [hs1lit]
    obtain ⟨s3, hg, hgi, hgl⟩ := get_spec_handler_miss (s1.setInner k H) rid
      r H hrc2 hres2 hmiss2 hcap2
    rw [hinext2] at hg
    exact ⟨s1.setInner k H, s3, hreg, hinext2, hg,
           fun he => hii (congrArg HInst.iid he).symm⟩

/-- The concrete resource used in the C4 witness. -/
def rC4 : Resource := ⟨5, "s", "path", []⟩

/-- A single-layer state with `"s"` bound, its resource cached, and a
handler instance for it in the cache. -/
def wC4 : FS :=
  { heap := [(0, [("s", ctorA)])]
    chain := [0]
    hnext := 1
    hcache := ⟨128, [((5, "A"), instA)]⟩
    rcache := ⟨128, [(5, rC4)]⟩
    dcache := ⟨1000000, []⟩
    res_col := [rC4]
    datum_col := []
    inext := 1
    rnext := 6 }

/-- C4 witness: the amended theorem applied in a single-layer state,
with the no-op part applied to the unbound spec `"t"`. -/
theorem C4_deregister_amended_witness :
    ((wC4.deregister_handler "s").resolve "s" = none ∧
     (wC4.deregister_handler "s").hcache = evictByName "A" wC4.hcache) ∧
    (wC4.deregister_handler "t" = wC4) ∧
    (∃ s2 s3, (wC4.deregister_handler "s").register_handler "s" ctorA false =
        Except.ok s2 ∧
      s2.inext = wC4.inext ∧
      s2.get_spec_handler 5 = Except.ok (⟨1, ctorA, "path", []⟩, s3) ∧
      ¬ (⟨1, ctorA, "path", []⟩ : HInst) = instA) := by
  have T := C4_deregister_amended wC4 "s" ctorA 0 [] 5 rC4 instA
  have T2 := C4_deregister_amended wC4 "t" ctorA 0 [] 5 rC4 instA
  refine ⟨T.1 (by decide) (by decide) (by decide) (by decide) (by decide),
          T2.2.1 (by decide) (by decide), ?_⟩
  obtain ⟨s2, s3, h1, h2, h3, h4⟩ := T.2.2 (by decide) (by decide)
    (by decide) (by decide) (by decide) (by decide) (by decide) (by decide)
    (by decide) (by decide)
  exact ⟨s2, s3, h1, h2, h3, h4⟩

/-! ### Uniqueness of cache keys -/

theorem nodup_keys_cons_removeA {K V : Type} [DecidableEq K]
    (l : List (K × V)) (k : K) (v : V) (h : (l.map Prod.fst).Nodup) :
    (((k, v) :: removeA l k).map Prod.fst).Nodup := by
  simp only [List.map_cons, List.nodup_cons]
  exact ⟨not_mem_keys_removeA_self l k h, nodup_keys_removeA l k h⟩

theorem nodup_keys_dropLast {K V : Type} (l : List (K × V))
    (h : (l.map Prod.fst).Nodup) :
    ((l.dropLast).map Prod.fst).Nodup :=
  List.Nodup.sublist ((List.dropLast_sublist l).map Prod.fst) h

theorem nodup_keys_LRU_set {K V : Type} [DecidableEq K] (c : LRU K V)
    (k : K) (v : V) (h : (c.entries.map Prod.fst).Nodup) :
    ((c.set k v).entries.map Prod.fst).Nodup := by
  simp only [LRU.set]
  by_cases hlen : c.maxSize < ((k, v) :: removeA c.entries k).length
  · rw [if_pos hlen]
    exact nodup_keys_dropLast _ (nodup_keys_cons_removeA c.entries k v h)
  · rw [if_neg hlen]
    exact nodup_keys_cons_removeA c.entries k v h

/-! ### Claim C5 -/

/-- C5: handler-instance cache keying.  With the resource cached and its
spec resolving to constructor `H`, (1) a retrieval whose key
`(resource _id, H.__name__)` is present returns the cached instance
without constructing a new one (the instance allocator is untouched and
the entry persists); (2) only on a miss is a new instance constructed
with `(resource_path, **resource_kwargs)` and cached under that key;
(3) the cache keys stay duplicate-free, so there is at most one live
instance per resource per handler implementation. -/
theorem C5_handler_cache_keying (s : FS) (rid : Nat) (r : Resource)
    (H : Handler) (inst : HInst)
    (hrc : lookupA s.rcache.entries rid = some r)
    (hres : s.resolve r.spec = some H) :
    (lookupA s.hcache.entries (r.rid, H.name) = some inst →
      ∃ s2, s.get_spec_handler rid = Except.ok (inst, s2) ∧
        s2.inext = s.inext ∧
        lookupA s2.hcache.entries (r.rid, H.name) = some inst) ∧
    (lookupA s.hcache.entries (r.rid, H.name) = none →
     0 < s.hcache.maxSize →
      ∃ s2, s.get_spec_handler rid =
          Except.ok (⟨s.inext, H, r.resource_path, r.resource_kwargs⟩, s2) ∧
        s2.inext = s.inext + 1 ∧
        lookupA s2.hcache.entries (r.rid, H.name) =
          some ⟨s.inext, H, r.resource_path, r.resource_kwargs⟩) ∧
    ((s.hcache.entries.map Prod.fst).Nodup →
      ∀ i s2, s.get_spec_handler rid = Except.ok (i, s2) →
        (s2.hcache.entries.map Prod.fst).Nodup) := by
  refine ⟨fun hhit => get_spec_handler_hit s rid r H inst hrc hres hhit,
          fun hmiss hcap =>
            get_spec_handler_miss s rid r H hrc hres hmiss hcap,
          ?_⟩
  intro hnd i s2 hok
  unfold FS.get_spec_handler at hok
  simp only [LRU.get, hrc] at hok
  unfold FS.resolve at hres
  simp only [FS.resolve, hres] at hok
  rcases hl : lookupA s.hcache.entries (r.rid, H.name) with _ | inst0
  · rw [hl] at hok
    simp only [Except.ok.injEq, Prod.mk.injEq] at hok
    obtain ⟨hi, hs2⟩ := hok
    subst hs2
    exact nodup_keys_LRU_set _ _ _ hnd
  · rw [hl] at hok
    simp only [Except.ok.injEq, Prod.mk.injEq] at hok
    obtain ⟨hi, hs2⟩ := hok
    subst hs2
    exact nodup_keys_cons_removeA _ _ _ hnd

/-- The miss-state used by the C5 witness. -/
def wC5m : FS := { wC4 with hcache := ⟨128, []⟩ }

/-- C5 witness: a cache hit on `wC4` reuses `instA`; a miss on `wC5m`
constructs and caches a fresh instance; keys stay duplicate-free. -/
theorem C5_handler_cache_keying_witness :
    (∃ s2, wC4.get_spec_handler 5 = Except.ok (instA, s2) ∧
      s2.inext = wC4.inext ∧
      lookupA s2.hcache.entries (5, "A") = some instA) ∧
    (∃ s2, wC5m.get_spec_handler 5 =
        Except.ok (⟨1, ctorA, "path", []⟩, s2) ∧
      s2.inext = wC5m.inext + 1 ∧
      lookupA s2.hcache.entries (5, "A") =
        some ⟨1, ctorA, "path", []⟩) ∧
    (∃ s2, wC4.get_spec_handler 5 = Except.ok (instA, s2) ∧
      (s2.hcache.entries.map Prod.fst).Nodup) := by
  have T := C5_handler_cache_keying wC4 5 rC4 ctorA instA (by decide)
    (by decide)
  have Tm := C5_handler_cache_keying wC5m 5 rC4 ctorA instA (by decide)
    (by decide)
  obtain ⟨s2, hok, hix, hlk⟩ := T.1 (by decide)
  exact ⟨⟨s2, hok, hix, hlk⟩, Tm.2.1 (by decide) (by decide),
         ⟨s2, hok, T.2.2 (by decide) instA s2 hok⟩⟩

/-! ### Claim C2 -/

/-- `get_spec_handler` with the resource loaded through the store (cache
miss on the resource cache) and a handler-cache miss: a fresh instance
is constructed from the resource's path and kwargs. -/
theorem get_spec_handler_miss_load (s : FS) (rid : Nat) (r : Resource)
    (H : Handler)
    (hrc : lookupA s.rcache.entries rid = none)
    (hfind : s.res_col.find? (fun x => x.rid == rid) = some r)
    (hres : s.resolve r.spec = some H)
    (hmiss : lookupA s.hcache.entries (r.rid, H.name) = none)
    (hcap : 0 < s.hcache.maxSize) :
    ∃ s2, s.get_spec_handler rid =
        Except.ok (⟨s.inext, H, r.resource_path, r.resource_kwargs⟩, s2) ∧
      s2.inext = s.inext + 1 := by
  unfold FS.get_spec_handler
  simp only [LRU.get, hrc, hfind]
  unfold FS.resolve at hres
  simp only [FS.resolve, hres, hmiss]
  exact ⟨_, rfl, rfl⟩

/-- `get_datum` with a datum-cache miss resolved through the store:
fetch the datum by `datum_id`, obtain the handler instance for its
resource, and invoke it with the datum's kwargs. -/
theorem get_datum_load (callH : Handler → String → KW → KW → Val) (s : FS)
    (eid : String) (dat : Datum) (inst : HInst) (s3 : FS)
    (hdc : lookupA s.dcache.entries eid = none)
    (hfind : s.datum_col.find? (fun x => x.datum_id == eid) = some dat)
    (hg : ({ s with dcache := s.dcache.set eid dat } : FS).get_spec_handler
        dat.resource = Except.ok (inst, s3)) :
    s.get_datum callH eid =
      Except.ok (callH inst.ctor inst.rpath inst.rkwargs dat.datum_kwargs,
        s3) := by
  unfold FS.get_datum
  simp only [LRU.get, hdc, hfind, hg]

/-- C2: round trip.  Inserting a resource and a datum for it and then
retrieving by the returned datum id yields exactly the value the
registered handler produces from the resource's construction arguments
and the datum's kwargs — in particular, a handler capable of returning
the inserted array `v` unchanged makes `retrieve` return `v`.  The
freshness hypotheses say the caches hold no stale entry for the
newly-allocated ids (insertion never populates a cache). -/
theorem C2_round_trip (validR validD : Spec → KW → Bool)
    (callH : Handler → String → KW → KW → Val) (s s1 s2 : FS) (sp : Spec)
    (path : String) (rkw dkw : KW) (did : String) (r : Resource)
    (dat : Datum) (hdl : Handler) (v : Val)
    (hr : s.insert_resource validR sp path rkw = Except.ok (r, s1))
    (hd : s1.insert_datum validD r did dkw = Except.ok (dat, s2))
    (hres : s2.resolve sp = some hdl)
    (hcall : callH hdl path rkw dkw = v)
    (hdc : lookupA s2.dcache.entries did = none)
    (hrcache : lookupA s2.rcache.entries r.rid = none)
    (hhc : lookupA s2.hcache.entries (r.rid, hdl.name) = none)
    (hcap : 0 < s2.hcache.maxSize) :
    ∃ s3, s2.get_datum callH did = Except.ok (v, s3) := by
  -- unpack the resource insertion
  unfold FS.insert_resource at hr
  by_cases hv : validR sp rkw = true
  · rw [if_pos hv] at hr
    simp only [Except.ok.injEq, Prod.mk.injEq] at hr
    obtain ⟨hrr, hs1⟩ := hr
    -- unpack the datum insertion
    unfold FS.insert_datum at hd
    by_cases hvd : validD r.spec dkw = true
    · rw [if_neg (by simp [hvd])] at hd
      by_cases hdup : s1.datum_col.any (fun x => x.datum_id == did) = true
      · rw [if_pos hdup] at hd
        cases hd
      · rw [if_neg hdup] at hd
        simp only [Except.ok.injEq, Prod.mk.injEq] at hd
        obtain ⟨hdd, hs2⟩ := hd
        -- component facts of the inserted documents and collections
        have hrspec : r.spec = sp := by rw [← hrr]
        have hrpath : r.resource_path = path := by rw [← hrr]
        have hrkw : r.resource_kwargs = rkw := by rw [← hrr]
        have hdatid : dat.datum_id = did := by rw [← hdd]
        have hdres : dat.resource = r.rid := by
          rw [← hdd]
        have hdkw : dat.datum_kwargs = dkw := by rw [← hdd]
        have hcol2 : s2.datum_col = dat :: s1.datum_col := by
          rw [← hs2, ← hdd]
        have hcolr : s2.res_col = r :: s.res_col := by
          rw [← hs2, ← hs1, ← hrr]
        -- step 1: the datum is found in the datum collection
        have hfindD : s2.datum_col.find? (fun x => x.datum_id == did) =
            some dat := by
          rw [hcol2]
          simp [List.find?, hdatid]
        -- step 2: the resource is found in the resource collection
        have hfindR : s2.res_col.find? (fun x => x.rid == r.rid) =
            some r := by
          rw [hcolr]
          simp [List.find?]
        -- step 3: the handler instance is constructed on a cache miss
        obtain ⟨s3x, hg, _⟩ := get_spec_handler_miss_load
          ({ s2 with dcache := s2.dcache.set did dat } : FS) r.rid r hdl
          hrcache hfindR (by rw [hrspec]; exact hres) hhc hcap
        have hg2 : ({ s2 with dcache := s2.dcache.set did dat } :
            FS).get_spec_handler dat.resource =
            Except.ok (⟨s2.inext, hdl, r.resource_path,
              r.resource_kwargs⟩, s3x) := by
          rw [hdres]
          exact hg
        -- step 4: run the retrieval
        have hrun := get_datum_load callH s2 did dat
          ⟨s2.inext, hdl, r.resource_path, r.resource_kwargs⟩ s3x hdc
          hfindD hg2
        refine ⟨s3x, ?_⟩
        rw [hrun]
        show Except.ok
          (callH hdl r.resource_path r.resource_kwargs dat.datum_kwargs,
            s3x) = Except.ok (v, s3x)
        rw [hrpath, hrkw, hdkw, hcall]
    · rw [if_pos (by simp [hvd])] at hd
      cases hd
  · rw [if_neg hv] at hr
    cases hr

/-- Initial store for the C2 witness: `"s"` pre-registered to `ctorA`. -/
def wS0 : FS := initFS [("s", ctorA)]

/-- The resource returned by the witness's `insert_resource`. -/
def wR2 : Resource := ⟨0, "s", "p", []⟩

/-- The store after the witness's `insert_resource`. -/
def wS1 : FS := { wS0 with res_col := [wR2], rnext := 1 }

/-- The datum returned by the witness's `insert_datum`. -/
def wD2 : Datum := ⟨"d0", 0, []⟩

/-- The store after the witness's `insert_datum`. -/
def wS2 : FS := { wS1 with datum_col := [wD2] }

/-- C2 witness: inserting a resource and datum on a fresh store with a
handler that returns `[42]` and retrieving the datum id yields `[42]`. -/
theorem C2_round_trip_witness :
    ∃ s3, wS2.get_datum (fun _ _ _ _ => [42]) "d0" =
      Except.ok ([42], s3) :=
  C2_round_trip (fun _ _ => true) (fun _ _ => true) (fun _ _ _ _ => [42])
    wS0 wS1 wS2 "s" "p" [] [] "d0" wR2 wD2 ctorA [42]
    (by decide) (by decide) (by decide) (by decide) (by decide) (by decide)
    (by decide) (by decide)

/-! ### Claim C8 -/

theorem length_removeA_le {K V : Type} [DecidableEq K]
    (l : List (K × V)) (k : K) : (removeA l k).length ≤ l.length := by
  induction l with
  | nil => exact Nat.le_refl _
  | cons p rest ih =>
      by_cases hp : p.1 = k
      · rw [removeA, if_pos hp]
        exact Nat.le_succ_of_le (Nat.le_refl _)
      · rw [removeA, if_neg hp]
        exact Nat.succ_le_succ ih

theorem LRU_set_length_le {K V : Type} [DecidableEq K] (c : LRU K V)
    (k : K) (v : V) (h : c.entries.length ≤ c.maxSize) :
    (c.set k v).entries.length ≤ c.maxSize := by
  simp only [LRU.set]
  by_cases hlen : c.maxSize < ((k, v) :: removeA c.entries k).length
  · rw [if_pos hlen]
    have h1 : ((k, v) :: removeA c.entries k).length ≤ c.maxSize + 1 :=
      Nat.succ_le_succ (Nat.le_trans (length_removeA_le c.entries k) h)
    rw [List.length_dropLast]
    omega
  · rw [if_neg hlen]
    omega

theorem foldl_set_bounded {K V : Type} [DecidableEq K]
    (puts : List (K × V)) (c : LRU K V)
    (h : c.entries.length ≤ c.maxSize) :
    (puts.foldl (fun a p => a.set p.1 p.2) c).maxSize = c.maxSize ∧
    (puts.foldl (fun a p => a.set p.1 p.2) c).entries.length ≤
      c.maxSize := by
  induction puts generalizing c with
  | nil => exact ⟨rfl, h⟩
  | cons p rest ih =>
      have hstep : (c.set p.1 p.2).entries.length ≤ (c.set p.1 p.2).maxSize :=
        LRU_set_length_le c p.1 p.2 h
      have := ih (c.set p.1 p.2) hstep
      simpa [List.foldl_cons] using this

set_option maxRecDepth 100000 in
/-- C8: counterexample.  The handler-instance and resource caches of a
fresh store are `boltons.cacheutils.LRU()` instances — bounded at the
library default of 128, not unbounded: putting 129 distinct keys into
the handler-instance cache evicts the first one by capacity. -/
theorem C8_default_caches_evict :
    (initFS []).hcache.maxSize = 128 ∧
    (initFS []).rcache.maxSize = 128 ∧
    lookupA ((((List.range 129).map (fun i => ((i, "H"), instA))).foldl
        (fun c p => c.set p.1 p.2) (initFS []).hcache).entries)
      (0, "H") = none := by decide

/-- C8 (amended): the datum cache is a bounded LRU cache with maximum
entry count 10^6 and never exceeds it under any sequence of puts; the
resource cache and the handler-instance cache are not unbounded but LRU
caches with the cache library's default capacity of 128, so their
entries can be evicted by capacity. -/
theorem C8_cache_bounds_amended (hr0 : Layer)
    (puts : List (String × Datum)) :
    (initFS hr0).dcache.maxSize = 1000000 ∧
    (initFS hr0).hcache.maxSize = DEFAULT_MAX_SIZE ∧
    (initFS hr0).rcache.maxSize = DEFAULT_MAX_SIZE ∧
    (puts.foldl (fun c p => c.set p.1 p.2) (initFS hr0).dcache).entries.length
      ≤ 1000000 := by
  refine ⟨rfl, rfl, rfl, ?_⟩
  exact (foldl_set_bounded puts (initFS hr0).dcache (by simp [initFS])).2

/-! ### Claim C9 -/

/-- C9: frame-count integrity.  When the underlying file yields fewer
frames than requested, `AreaDetectorSPEHandler.__call__` raises the
integrity error with the message reporting both the expected
(`frame_per_point`) and found frame counts, and
`AreaDetectorTiffHandler.__call__` — after refreshing its image
sequence — raises the integrity error reporting the frame count it
needed (`stop`) and the count found.  (`hmono` says the refreshed
sequence is no shorter than the cached one: files only accumulate.) -/
theorem C9_frame_count_integrity (fpp point : Nat) (data : List Frame)
    (cached current : List Frame)
    (hspe : data.length < fpp)
    (hmono : cached.length ≤ current.length)
    (htiff : current.length < (point + 1) * fpp) :
    AreaDetectorSPEHandler.call fpp data =
      Except.error ("expected " ++ toString fpp ++ " frames, found " ++
        toString data.length ++ " frames") ∧
    AreaDetectorTiffHandler.call fpp point cached current =
      Except.error ("Seeking Frame " ++ toString ((point + 1) * fpp) ++
        " out of " ++ toString current.length ++ " frames.") := by
  constructor
  · unfold AreaDetectorSPEHandler.call
    rw [if_pos (Nat.ne_of_lt hspe)]
  · have hc : cached.length < (point + 1) * fpp :=
      Nat.lt_of_le_of_lt hmono htiff
    simp only [AreaDetectorTiffHandler.call]
    rw [if_pos hc, if_pos htiff]

/-- C9 witness: one frame in a file read with `frame_per_point = 2`. -/
theorem C9_frame_count_integrity_witness :
    AreaDetectorSPEHandler.call 2 [[[1]]] =
      Except.error ("expected " ++ toString 2 ++ " frames, found " ++
        toString 1 ++ " frames") ∧
    AreaDetectorTiffHandler.call 2 0 [] [[[1]]] =
      Except.error ("Seeking Frame " ++ toString ((0 + 1) * 2) ++
        " out of " ++ toString 1 ++ " frames.") :=
  C9_frame_count_integrity 2 0 [[[1]]] [] [[[1]]] (by decide) (by decide)
    (by decide)

end FStore
